import Mathlib

/-!
Verification of the model-loader / optimal-volume-search module of the
Supply-Chain-Management dashboard (`src/utils/modelLoader.js`).

The JavaScript source is embedded shallowly:
* JavaScript numbers are modelled as exact rationals (`ℚ`); the module only
  performs field arithmetic on literals, so every intermediate value of the
  source is an exact rational.
* The JavaScript `Infinity` initial value of `lowestCost` is modelled by `⊤`
  in `WithTop ℚ`.
* `Math.round` is `jsRound` (round half towards `+∞`, JavaScript semantics).
* The `for (let v = lo; v <= hi; v += step)` loops are modelled by the list
  of visited points `samplePoints lo hi step` (faithful for `step > 0`,
  which makes the loop terminate).
* The module-level mutable `modelCache` and the asynchronous model load are
  modelled by explicit state passing: each stateful operation takes the
  cache and returns the updated cache, and the outcome of the
  `tf.loadLayersModel` attempt is a parameter `loadOutcome`.
-/

namespace SupplyChain

/-- JavaScript `Math.round`: round half up, `Math.round x = ⌊x + 1/2⌋`. -/
def jsRound (x : ℚ) : ℤ := ⌊x + 1 / 2⌋

/-! ### The evaluator (modelLoader.js lines 57-125) -/

/-- `normalizeProductionVolume` (source lines 92-94):
`(value - min) / (max - min)` with defaults `min = 100`, `max = 10000`. -/
def normalizeProductionVolume (value : ℚ) (min : ℚ := 100) (max : ℚ := 10000) : ℚ :=
  (value - min) / (max - min)

/-- `denormalizeCost` (source lines 99-101):
`normalizedCost * (max - min) + min` with defaults `min = 5000`, `max = 100000`. -/
def denormalizeCost (normalizedCost : ℚ) (min : ℚ := 5000) (max : ℚ := 100000) : ℚ :=
  normalizedCost * (max - min) + min

/-- The `predict` function of the object returned by `createFallbackModel`
(source lines 70-85): the input is the normalized volume, `x = value * 10000`,
`cost = 100000 * (x - 5000)^2 / 25000000 + 10000`, and the returned tensor
holds `cost / 100000`. -/
def createFallbackModelPredict (value : ℚ) : ℚ :=
  let x := value * 10000
  let cost := 100000 * (x - 5000) ^ 2 / 25000000 + 10000
  cost / 100000

/-- A loaded cost model: either the real TensorFlow.js layers model (abstracted
by the function its `predict` computes on the normalized input) or the
fallback object built by `createFallbackModel`. -/
inductive CostModel where
  | real (predict : ℚ → ℚ)
  | fallback

/-- `model.predict` as a function on the normalized input value. -/
def CostModel.predictFn : CostModel → (ℚ → ℚ)
  | .real predict => predict
  | .fallback => createFallbackModelPredict

/-- The module-level `modelCache` (source lines 5-8); the `demandForecast`
field is never written or read by the embedded functions and is omitted. -/
structure ModelCache where
  costOptimization : Option CostModel

/-- The cache at module load: `{ costOptimization: null }`. -/
def ModelCache.initial : ModelCache := ⟨none⟩

/-- `loadCostOptimizationModel` (source lines 27-51).  `loadOutcome` is the
result of the `tf.loadLayersModel` attempt (`.error` = the promise rejected).
If the cache is populated it is returned as is; otherwise on success the
loaded model is cached and returned, and on failure the error is caught and
the fallback model is cached and returned. -/
def loadCostOptimizationModel (loadOutcome : Except String CostModel)
    (cache : ModelCache) : CostModel × ModelCache :=
  match cache.costOptimization with
  | some m => (m, cache)
  | none =>
    match loadOutcome with
    | .ok m => (m, ⟨some m⟩)
    | .error _ => (CostModel.fallback, ⟨some CostModel.fallback⟩)

/-- `predictManufacturingCost` (source lines 106-125), with the cache state
explicit: load (or reuse) the model, normalize the input, run the model's
`predict`, and denormalize the result. -/
def predictManufacturingCostSt (loadOutcome : Except String CostModel)
    (productionVolume : ℚ) (cache : ModelCache) : ℚ × ModelCache :=
  let load := loadCostOptimizationModel loadOutcome cache
  let normalizedValue := normalizeProductionVolume productionVolume
  let result := load.1.predictFn normalizedValue
  (denormalizeCost result, load.2)

/-- `predictManufacturingCost` on the fallback path (the model backend of the
production deployment is absent, so `tf.loadLayersModel` rejects and the
fallback model answers).  This is the spec's "reference evaluator". -/
def predictManufacturingCost (productionVolume : ℚ) : ℚ :=
  (predictManufacturingCostSt (Except.error "load failed") productionVolume
    ModelCache.initial).1

/-! ### Demand prediction (modelLoader.js lines 132-165) -/

/-- The feature record taken by `predictDemand`. -/
structure DemandFeatures where
  price : ℚ
  availability : ℚ
  stockLevels : ℚ
  leadTimes : ℚ
  orderQuantities : ℚ

/-- `predictDemand` (source lines 132-165): weighted sum of normalized
features around fixed centres, scaled onto a baseline, three threshold
multipliers, then `Math.max(0, Math.round(prediction))`.  The JavaScript
return value is a number, hence the `ℚ` codomain. -/
def predictDemand (features : DemandFeatures) : ℚ :=
  let weightedSum :=
    (features.price - 50) / 10 * (-3.5) +
    (features.availability - 75) / 25 * 2.8 +
    (features.stockLevels - 60) / 40 * 1.2 +
    (features.leadTimes - 7) / 5 * (-2.0) +
    (features.orderQuantities - 30) / 20 * 0.8
  let prediction := 850 + weightedSum * 120
  let prediction := if 100 < features.price then prediction * 0.7 else prediction
  let prediction := if features.availability < 30 then prediction * 0.6 else prediction
  let prediction := if 14 < features.leadTimes then prediction * 0.8 else prediction
  ((Max.max 0 (jsRound prediction) : ℤ) : ℚ)

/-! ### The search (modelLoader.js lines 171-217) -/

/-- The points visited by `for (let volume = lo; volume <= hi; volume += step)`
under exact rational arithmetic: for `step > 0` these are
`lo, lo + step, …, lo + n * step` with `n = ⌊(hi - lo) / step⌋`, and no
iteration runs when `lo > hi`. -/
def samplePoints (lo hi step : ℚ) : List ℚ :=
  if lo ≤ hi then
    (List.range (⌊(hi - lo) / step⌋.toNat + 1)).map (fun i : ℕ => lo + (i : ℚ) * step)
  else []

/-- The running state of the search: `bestVolume` and `lowestCost`
(source lines 173-174); `⊤` is the initial `Infinity`. -/
structure SState where
  bestVolume : ℚ
  lowestCost : WithTop ℚ
  deriving DecidableEq

/-- One loop body of the search (source lines 177-182): evaluate the cost
`E volume` and update the running best on strict improvement
`cost < lowestCost`. -/
def scanStep (E : ℚ → ℚ) (s : SState) (volume : ℚ) : SState :=
  if (E volume : WithTop ℚ) < s.lowestCost then ⟨volume, E volume⟩ else s

/-- One full scan pass over a list of candidate volumes. -/
def runPass (E : ℚ → ℚ) (s : SState) (pts : List ℚ) : SState :=
  pts.foldl (scanStep E) s

/-- Points of the coarse pass (source line 176). -/
def pass1Points (minVolume maxVolume initialStepSize : ℚ) : List ℚ :=
  samplePoints minVolume maxVolume initialStepSize

/-- State after the coarse pass; the initial state is
`bestVolume = minVolume`, `lowestCost = Infinity` (source lines 173-174). -/
def state1 (E : ℚ → ℚ) (minVolume maxVolume initialStepSize : ℚ) : SState :=
  runPass E ⟨minVolume, ⊤⟩ (pass1Points minVolume maxVolume initialStepSize)

/-- Points of the refinement pass (source lines 186-190): window
`[max(minVolume, best - step), min(maxVolume, best + step)]`, step `step/10`. -/
def pass2Points (E : ℚ → ℚ) (minVolume maxVolume initialStepSize : ℚ) : List ℚ :=
  let bestVolume := (state1 E minVolume maxVolume initialStepSize).bestVolume
  samplePoints (Max.max minVolume (bestVolume - initialStepSize))
    (Min.min maxVolume (bestVolume + initialStepSize)) (initialStepSize / 10)

/-- State after the refinement pass (carried over from the coarse pass). -/
def state2 (E : ℚ → ℚ) (minVolume maxVolume initialStepSize : ℚ) : SState :=
  runPass E (state1 E minVolume maxVolume initialStepSize)
    (pass2Points E minVolume maxVolume initialStepSize)

/-- Points of the final pass (source lines 200-204): window radius
`refinedStep = step/10` around the running best, step `refinedStep/5`. -/
def pass3Points (E : ℚ → ℚ) (minVolume maxVolume initialStepSize : ℚ) : List ℚ :=
  let bestVolume := (state2 E minVolume maxVolume initialStepSize).bestVolume
  samplePoints (Max.max minVolume (bestVolume - initialStepSize / 10))
    (Min.min maxVolume (bestVolume + initialStepSize / 10)) (initialStepSize / 10 / 5)

/-- State after the final pass. -/
def state3 (E : ℚ → ℚ) (minVolume maxVolume initialStepSize : ℚ) : SState :=
  runPass E (state2 E minVolume maxVolume initialStepSize)
    (pass3Points E minVolume maxVolume initialStepSize)

/-- All volumes at which the search invokes the evaluator, in call order. -/
def searchPoints (E : ℚ → ℚ) (minVolume maxVolume initialStepSize : ℚ) : List ℚ :=
  pass1Points minVolume maxVolume initialStepSize ++
    pass2Points E minVolume maxVolume initialStepSize ++
    pass3Points E minVolume maxVolume initialStepSize

/-- The result object `{volume, cost}` of source lines 213-216: both
components pass through `Math.round`; `cost` is `⊤` when `lowestCost` is
still `Infinity`. -/
structure SearchResult where
  volume : ℤ
  cost : WithTop ℤ
  deriving DecidableEq

/-- `findOptimalProductionVolume` (source lines 171-217), parameterized by
the evaluator `E` the three passes call (the source calls
`predictManufacturingCost`). -/
def findOptimalProductionVolume (E : ℚ → ℚ) (minVolume : ℚ := 100)
    (maxVolume : ℚ := 10000) (initialStepSize : ℚ := 500) : SearchResult :=
  let s := state3 E minVolume maxVolume initialStepSize
  ⟨jsRound s.bestVolume, s.lowestCost.map jsRound⟩

/-- The successive running states of the search, one entry per evaluator
call (plus the initial state). -/
def searchStates (E : ℚ → ℚ) (minVolume maxVolume initialStepSize : ℚ) :
    List SState :=
  List.scanl (scanStep E) ⟨minVolume, ⊤⟩ (searchPoints E minVolume maxVolume initialStepSize)

/-! ### The search with the module-level cache state explicit

In the source, `findOptimalProductionVolume` calls
`predictManufacturingCost`, which goes through `loadCostOptimizationModel`
and hence reads and writes the module-level `modelCache`.  The following
definitions are the same three-pass search with that cache threaded
explicitly. -/

/-- One loop body of the search when the evaluator is the source's
`predictManufacturingCost`: the cache is read and updated by the call. -/
def scanStepSt (loadOutcome : Except String CostModel) (s : SState × ModelCache)
    (volume : ℚ) : SState × ModelCache :=
  let r := predictManufacturingCostSt loadOutcome volume s.2
  (if (r.1 : WithTop ℚ) < s.1.lowestCost then ⟨volume, r.1⟩ else s.1, r.2)

/-- One full scan pass with the cache threaded through. -/
def runPassSt (loadOutcome : Except String CostModel) (s : SState × ModelCache)
    (pts : List ℚ) : SState × ModelCache :=
  pts.foldl (scanStepSt loadOutcome) s

/-- `findOptimalProductionVolume` (source lines 171-217) with the
module-level `modelCache` passed and returned explicitly. -/
def findOptimalProductionVolumeSt (loadOutcome : Except String CostModel)
    (minVolume maxVolume initialStepSize : ℚ) (cache : ModelCache) :
    SearchResult × ModelCache :=
  let s1 := runPassSt loadOutcome (⟨minVolume, ⊤⟩, cache)
    (samplePoints minVolume maxVolume initialStepSize)
  let s2 := runPassSt loadOutcome s1
    (samplePoints (Max.max minVolume (s1.1.bestVolume - initialStepSize))
      (Min.min maxVolume (s1.1.bestVolume + initialStepSize)) (initialStepSize / 10))
  let s3 := runPassSt loadOutcome s2
    (samplePoints (Max.max minVolume (s2.1.bestVolume - initialStepSize / 10))
      (Min.min maxVolume (s2.1.bestVolume + initialStepSize / 10))
      (initialStepSize / 10 / 5))
  (⟨jsRound s3.1.bestVolume, s3.1.lowestCost.map jsRound⟩, s3.2)

/-! ### Helper lemmas -/

/-- Closed form of the fallback-path evaluator: the source composes the
fallback parabola with `denormalizeCost`, which rescales it to
`38 (v - 5050)² / 9801 + 14500`. -/
theorem predictManufacturingCost_closed_form (v : ℚ) :
    predictManufacturingCost v = 38 * (v - 5050) ^ 2 / 9801 + 14500 := by
  show denormalizeCost (createFallbackModelPredict (normalizeProductionVolume v)) = _
  unfold denormalizeCost createFallbackModelPredict normalizeProductionVolume
  ring

/-- The evaluator never returns less than `14500`. -/
theorem predictManufacturingCost_lower_bound (v : ℚ) :
    14500 ≤ predictManufacturingCost v := by
  rw [predictManufacturingCost_closed_form]
  nlinarith [sq_nonneg (v - 5050)]

/-- A scan step never increases the running `lowestCost`. -/
theorem scanStep_lowestCost_le (E : ℚ → ℚ) (s : SState) (v : ℚ) :
    (scanStep E s v).lowestCost ≤ s.lowestCost := by
  unfold scanStep
  split
  · exact le_of_lt (by assumption)
  · exact le_refl _

/-- The best volume after a scan step is the visited point or the old best. -/
theorem scanStep_bestVolume (E : ℚ → ℚ) (s : SState) (v : ℚ) :
    (scanStep E s v).bestVolume = v ∨ (scanStep E s v).bestVolume = s.bestVolume := by
  unfold scanStep
  split
  · exact Or.inl rfl
  · exact Or.inr rfl

/-- Every point visited by a loop `for (v = lo; v <= hi; v += step)` with
`step > 0` lies in `[lo, hi]`. -/
theorem samplePoints_mem (lo hi step : ℚ) (hstep : 0 < step) :
    ∀ v ∈ samplePoints lo hi step, lo ≤ v ∧ v ≤ hi := by
  intro v hv
  unfold samplePoints at hv
  split at hv
  case isTrue hle =>
    rw [List.mem_map] at hv
    obtain ⟨i, hmem, rfl⟩ := hv
    rw [List.mem_range] at hmem
    have hi0 : (0:ℚ) ≤ (i : ℚ) * step :=
      mul_nonneg (Nat.cast_nonneg i) hstep.le
    refine ⟨by linarith, ?_⟩
    have hq : (0:ℚ) ≤ (hi - lo) / step := div_nonneg (by linarith) hstep.le
    have hfl : (0:ℤ) ≤ ⌊(hi - lo) / step⌋ := Int.floor_nonneg.mpr hq
    have hiZ : (i : ℤ) ≤ ⌊(hi - lo) / step⌋ := by omega
    have hiQ : (i : ℚ) ≤ (hi - lo) / step := by
      refine le_trans ?_ (Int.floor_le _)
      exact_mod_cast Int.cast_le.mpr hiZ
    have hmul := mul_le_mul_of_nonneg_right hiQ hstep.le
    rw [div_mul_cancel₀ _ (ne_of_gt hstep)] at hmul
    linarith
  case isFalse => simp at hv

/-- The first point visited by a loop with `lo ≤ hi` is `lo` itself. -/
theorem samplePoints_head_mem (lo hi step : ℚ) (hle : lo ≤ hi) :
    lo ∈ samplePoints lo hi step := by
  unfold samplePoints
  rw [if_pos hle]
  have h0 : (0:ℕ) ∈ List.range (⌊(hi - lo) / step⌋.toNat + 1) :=
    List.mem_range.mpr (Nat.succ_pos _)
  have hmm := List.mem_map_of_mem (fun i : ℕ => lo + (i:ℚ) * step) h0
  simpa using hmm

/-- A predicate holding at the incoming best volume and at every scanned
point holds at the outgoing best volume. -/
theorem runPass_bestVolume_pred (E : ℚ → ℚ) (P : ℚ → Prop) :
    ∀ (pts : List ℚ) (s : SState), P s.bestVolume → (∀ v ∈ pts, P v) →
      P (runPass E s pts).bestVolume
  | [], _, hs, _ => hs
  | v :: pts, s, hs, hp => by
    rw [runPass, List.foldl_cons]
    refine runPass_bestVolume_pred E P pts (scanStep E s v) ?_
      (fun w hw => hp w (List.mem_cons_of_mem _ hw))
    rcases scanStep_bestVolume E s v with h | h <;> rw [h]
    · exact hp v (List.mem_cons_self _ _)
    · exact hs

/-- Along the trace of running states, `lowestCost` never increases. -/
theorem chain_scanl_lowestCost (E : ℚ → ℚ) :
    ∀ (pts : List ℚ) (s : SState),
      List.Chain' (fun a b => b.lowestCost ≤ a.lowestCost)
        (List.scanl (scanStep E) s pts)
  | [], s => by simp
  | v :: pts, s => by
    rw [List.scanl]
    refine List.chain'_cons'.mpr ⟨?_, chain_scanl_lowestCost E pts (scanStep E s v)⟩
    intro b hb
    have hh : (List.scanl (scanStep E) (scanStep E s v) pts).head? =
        some (scanStep E s v) := by cases pts <;> rfl
    rw [hh, Option.mem_some_iff] at hb
    rw [← hb]
    exact scanStep_lowestCost_le E s v

/-- Invariant of one scan pass: the outgoing `lowestCost` is at most the
incoming one and at most every scanned cost, and either the state is
unchanged, or the new best is a scanned point whose cost strictly beat the
incoming `lowestCost` and is strictly below the cost of every point scanned
before it. -/
theorem runPass_argmin (E : ℚ → ℚ) :
    ∀ (pts : List ℚ) (s : SState),
      ((runPass E s pts).lowestCost ≤ s.lowestCost ∧
        ∀ v ∈ pts, (runPass E s pts).lowestCost ≤ (E v : WithTop ℚ)) ∧
      (runPass E s pts = s ∨
        ∃ pre suf, pts = pre ++ (runPass E s pts).bestVolume :: suf ∧
          (runPass E s pts).lowestCost = (E (runPass E s pts).bestVolume : WithTop ℚ) ∧
          (runPass E s pts).lowestCost < s.lowestCost ∧
          ∀ v ∈ pre, (runPass E s pts).lowestCost < (E v : WithTop ℚ))
  | [], s => ⟨⟨le_refl _, by simp⟩, Or.inl rfl⟩
  | v :: pts, s => by
    have hstep : runPass E s (v :: pts) = runPass E (scanStep E s v) pts := by
      rw [runPass, List.foldl_cons]; rfl
    by_cases h : (E v : WithTop ℚ) < s.lowestCost
    · have ht : scanStep E s v = ⟨v, E v⟩ := by unfold scanStep; rw [if_pos h]
      obtain ⟨⟨ih1, ih2⟩, ih3⟩ := runPass_argmin E pts ⟨v, E v⟩
      rw [hstep, ht]
      have ih1' : (runPass E ⟨v, E v⟩ pts).lowestCost ≤ (E v : WithTop ℚ) := ih1
      refine ⟨⟨le_trans ih1' h.le, ?_⟩, ?_⟩
      · intro w hw
        rcases List.mem_cons.mp hw with rfl | hw
        · exact ih1'
        · exact ih2 w hw
      · rcases ih3 with heq | ⟨pre, suf, hsplit, hlc, hlt, hpre⟩
        · refine Or.inr ⟨[], pts, ?_, ?_, ?_, by simp⟩
          · rw [heq]; rfl
          · rw [heq]
          · rw [heq]; exact h
        · refine Or.inr ⟨v :: pre, suf, ?_, hlc, ?_, ?_⟩
          · rw [List.cons_append, ← hsplit]
          · exact lt_trans hlt h
          · intro w hw
            rcases List.mem_cons.mp hw with rfl | hw
            · exact hlt
            · exact hpre w hw
    · have ht : scanStep E s v = s := by unfold scanStep; rw [if_neg h]
      obtain ⟨⟨ih1, ih2⟩, ih3⟩ := runPass_argmin E pts s
      rw [hstep, ht]
      have hle : s.lowestCost ≤ (E v : WithTop ℚ) := not_lt.mp h
      refine ⟨⟨ih1, ?_⟩, ?_⟩
      · intro w hw
        rcases List.mem_cons.mp hw with rfl | hw
        · exact le_trans ih1 hle
        · exact ih2 w hw
      · rcases ih3 with heq | ⟨pre, suf, hsplit, hlc, hlt, hpre⟩
        · exact Or.inl heq
        · refine Or.inr ⟨v :: pre, suf, ?_, hlc, hlt, ?_⟩
          · rw [List.cons_append, ← hsplit]
          · intro w hw
            rcases List.mem_cons.mp hw with rfl | hw
            · exact lt_of_lt_of_le hlt hle
            · exact hpre w hw

/-- The final state of the search is the fold of the scan step over the
full visit sequence: the three passes share one running state. -/
theorem state3_eq_runPass (E : ℚ → ℚ) (a b c : ℚ) :
    state3 E a b c = runPass E ⟨a, ⊤⟩ (searchPoints E a b c) := by
  simp only [state3, state2, state1, searchPoints, runPass, List.foldl_append]

/-! ### Claims -/

/-- **C3**, counterexample: the claim says `predictManufacturingCost` returns
exactly `100000 * (x - 5000)^2 / 25000000 + 10000` (with
`x = normalized * 10000`).  At volume `5050` that formula gives `10000`, but
the function returns `14500`, because the code additionally passes the
fallback model's normalized output through `denormalizeCost`. -/
theorem c3_counterexample :
    predictManufacturingCost 5050 ≠
      100000 * (normalizeProductionVolume 5050 * 10000 - 5000) ^ 2 / 25000000 + 10000 := by
  rw [predictManufacturingCost_closed_form]
  norm_num [normalizeProductionVolume]

/-- **C3** (amended): for every volume `v` the evaluator returns
`denormalizeCost` of the fallback formula's normalized output — equivalently
`38 * (v - 5050)^2 / 9801 + 14500` — and its minimum value is `14500`,
attained at volume `5050` (not `10000` at volume `≈ 5000`). -/
theorem c3_theorem :
    (∀ v : ℚ,
      predictManufacturingCost v =
        denormalizeCost (createFallbackModelPredict (normalizeProductionVolume v)) ∧
      predictManufacturingCost v = 38 * (v - 5050) ^ 2 / 9801 + 14500 ∧
      14500 ≤ predictManufacturingCost v) ∧
    predictManufacturingCost 5050 = 14500 := by
  refine ⟨fun v => ⟨rfl, predictManufacturingCost_closed_form v,
    predictManufacturingCost_lower_bound v⟩, ?_⟩
  rw [predictManufacturingCost_closed_form]
  norm_num

set_option maxRecDepth 100000 in
unseal Rat.add Rat.mul Rat.inv Rat.sub in
/-- **C2**, counterexample: with the reference (fallback-path) evaluator,
`search(100, 10000, 500)` returns volume `5050` and cost `14500`; neither is
within tolerance `10` of the claimed `5000` / `10000`. -/
theorem c2_counterexample :
    findOptimalProductionVolume predictManufacturingCost 100 10000 500 =
      ⟨5050, ((14500 : ℤ) : WithTop ℤ)⟩ ∧
    ¬(|(5050 : ℤ) - 5000| ≤ 10) ∧ ¬(|(14500 : ℤ) - 10000| ≤ 10) := by
  decide

set_option maxRecDepth 100000 in
unseal Rat.add Rat.mul Rat.inv Rat.sub in
/-- **C2** (amended): `search(100, 10000, 500)` with the code's evaluator
returns exactly volume `5050` and cost `14500` — the true minimizer and
minimum value of that evaluator (which is the spec's parabola rescaled by
`denormalizeCost`). -/
theorem c2_theorem :
    findOptimalProductionVolume predictManufacturingCost 100 10000 500 =
      ⟨5050, ((14500 : ℤ) : WithTop ℤ)⟩ ∧
    (∀ v : ℚ, 14500 ≤ predictManufacturingCost v) ∧
    predictManufacturingCost 5050 = 14500 := by
  refine ⟨by decide, predictManufacturingCost_lower_bound, ?_⟩
  rw [predictManufacturingCost_closed_form]
  norm_num

set_option maxRecDepth 100000 in
unseal Rat.add Rat.mul Rat.inv Rat.sub in
/-- **C1**, counterexample: `search(1000, 100, 50)` does not fail — the code
defines no `InvalidRangeError` and performs no validation.  It makes zero
evaluator calls and returns normally with `{volume: 1000, cost: Infinity}`. -/
theorem c1_counterexample :
    searchPoints predictManufacturingCost 1000 100 50 = [] ∧
    findOptimalProductionVolume predictManufacturingCost 1000 100 50 = ⟨1000, ⊤⟩ := by
  decide

/-- **C1** (amended): the search performs no input validation and defines no
`InvalidRangeError`.  For every evaluator and every call with
`minVolume > maxVolume`, it makes zero evaluator calls and returns normally
with `{volume: Math.round(minVolume), cost: Infinity}`. -/
theorem c1_theorem (E : ℚ → ℚ) (minVolume maxVolume initialStepSize : ℚ)
    (h : maxVolume < minVolume) :
    searchPoints E minVolume maxVolume initialStepSize = [] ∧
    findOptimalProductionVolume E minVolume maxVolume initialStepSize =
      ⟨jsRound minVolume, ⊤⟩ := by
  have hempty : ∀ lo hi step : ℚ, hi < lo → samplePoints lo hi step = [] := by
    intro lo hi step hlt
    unfold samplePoints
    rw [if_neg (not_le.mpr hlt)]
  have hwin : ∀ r : ℚ,
      Min.min maxVolume (minVolume + r) < Max.max minVolume (minVolume - r) :=
    fun r => lt_of_le_of_lt (min_le_left _ _) (lt_of_lt_of_le h (le_max_left _ _))
  have h1 : pass1Points minVolume maxVolume initialStepSize = [] :=
    hempty _ _ _ h
  have hs1 : state1 E minVolume maxVolume initialStepSize = ⟨minVolume, ⊤⟩ := by
    rw [state1, h1]; rfl
  have h2 : pass2Points E minVolume maxVolume initialStepSize = [] := by
    simp only [pass2Points, hs1]
    exact hempty _ _ _ (hwin _)
  have hs2 : state2 E minVolume maxVolume initialStepSize = ⟨minVolume, ⊤⟩ := by
    rw [state2, h2, hs1]; rfl
  have h3 : pass3Points E minVolume maxVolume initialStepSize = [] := by
    simp only [pass3Points, hs2]
    exact hempty _ _ _ (hwin _)
  have hs3 : state3 E minVolume maxVolume initialStepSize = ⟨minVolume, ⊤⟩ := by
    rw [state3, h3, hs2]; rfl
  constructor
  · rw [searchPoints, h1, h2, h3]; rfl
  · rw [findOptimalProductionVolume, hs3]; rfl

/-- **C1**, witness for the amended theorem at a concrete invalid range. -/
theorem c1_witness :
    searchPoints (fun _ => (0:ℚ)) 2000 100 7 = [] ∧
    findOptimalProductionVolume (fun _ => (0:ℚ)) 2000 100 7 = ⟨jsRound 2000, ⊤⟩ :=
  c1_theorem (fun _ => 0) 2000 100 7 (by norm_num)

set_option maxRecDepth 100000 in
unseal Rat.add Rat.mul Rat.inv Rat.sub in
/-- **C4**, counterexample: `search(500, 500, 100)` calls the evaluator three
times (once per pass), not exactly once, and the returned cost is
`Math.round` of the evaluator's output (`94767`), not the output itself
(`94766 + 7934/9801`). -/
theorem c4_counterexample :
    (searchPoints predictManufacturingCost 500 500 100).length = 3 ∧
    (findOptimalProductionVolume predictManufacturingCost 500 500 100).cost =
      ((94767 : ℤ) : WithTop ℤ) ∧
    predictManufacturingCost 500 ≠ 94767 := by
  refine ⟨by decide, by decide, by decide⟩

/-- **C4** (amended): for every evaluator, `search(500, 500, 100)` — like any
call with `minVolume == maxVolume` — evaluates the single point `500` once in
each of the three passes (three evaluator calls in total), and returns
`{volume: 500, cost: Math.round(evaluate(500))}`. -/
theorem c4_theorem (E : ℚ → ℚ) :
    searchPoints E 500 500 100 = [500, 500, 500] ∧
    state3 E 500 500 100 = ⟨500, (E 500 : WithTop ℚ)⟩ ∧
    findOptimalProductionVolume E 500 500 100 =
      ⟨500, ((jsRound (E 500) : ℤ) : WithTop ℤ)⟩ := by
  have hsp : ∀ step : ℚ, samplePoints 500 500 step = [500] := by
    intro step
    unfold samplePoints
    rw [if_pos le_rfl]
    norm_num [List.range_succ]
  have hmax : ∀ r : ℚ, 0 ≤ r → Max.max (500:ℚ) (500 - r) = 500 :=
    fun r hr => max_eq_left (by linarith)
  have hmin : ∀ r : ℚ, 0 ≤ r → Min.min (500:ℚ) (500 + r) = 500 :=
    fun r hr => min_eq_left (by linarith)
  have hscan1 : scanStep E ⟨500, ⊤⟩ 500 = ⟨500, (E 500 : WithTop ℚ)⟩ := by
    unfold scanStep
    rw [if_pos (WithTop.coe_lt_top _)]
  have hscan2 : scanStep E ⟨500, (E 500 : WithTop ℚ)⟩ 500 =
      ⟨500, (E 500 : WithTop ℚ)⟩ := by
    unfold scanStep
    rw [if_neg (lt_irrefl _)]
  have h1 : pass1Points 500 500 100 = [500] := hsp 100
  have hs1 : state1 E 500 500 100 = ⟨500, (E 500 : WithTop ℚ)⟩ := by
    rw [state1, h1]
    exact hscan1
  have h2 : pass2Points E 500 500 100 = [500] := by
    simp only [pass2Points, hs1]
    rw [hmax 100 (by norm_num), hmin 100 (by norm_num)]
    exact hsp _
  have hs2 : state2 E 500 500 100 = ⟨500, (E 500 : WithTop ℚ)⟩ := by
    rw [state2, h2, hs1]
    exact hscan2
  have h3 : pass3Points E 500 500 100 = [500] := by
    simp only [pass3Points, hs2]
    rw [hmax (100 / 10) (by norm_num), hmin (100 / 10) (by norm_num)]
    exact hsp _
  have hs3 : state3 E 500 500 100 = ⟨500, (E 500 : WithTop ℚ)⟩ := by
    rw [state3, h3, hs2]
    exact hscan2
  refine ⟨?_, hs3, ?_⟩
  · rw [searchPoints, h1, h2, h3]
    rfl
  · rw [findOptimalProductionVolume, hs3]
    have h500 : jsRound 500 = 500 := by
      unfold jsRound
      rw [Int.floor_eq_iff]
      norm_num
    simp [h500, WithTop.map_coe]

/-- **C5** (confirmed): for every evaluator and all arguments, the running
`lowestCost` is non-increasing along the whole sequence of evaluator calls,
across all three passes — a later pass never resets or regresses it. -/
theorem c5_theorem (E : ℚ → ℚ) (minVolume maxVolume initialStepSize : ℚ) :
    List.Chain' (fun a b => b.lowestCost ≤ a.lowestCost)
      (searchStates E minVolume maxVolume initialStepSize) :=
  chain_scanl_lowestCost E _ _

/-- **C6** (confirmed): with `minVolume ≤ maxVolume` and a positive step,
every volume at which the search invokes the evaluator — in the coarse pass
and in the clamped refinement and final windows — lies within
`[minVolume, maxVolume]`. -/
theorem c6_theorem (E : ℚ → ℚ) (minVolume maxVolume initialStepSize : ℚ)
    (hrange : minVolume ≤ maxVolume) (hstep : 0 < initialStepSize) :
    ∀ v ∈ searchPoints E minVolume maxVolume initialStepSize,
      minVolume ≤ v ∧ v ≤ maxVolume := by
  have h10 : 0 < initialStepSize / 10 := by positivity
  have h50 : 0 < initialStepSize / 10 / 5 := by positivity
  have hP1 : ∀ v ∈ pass1Points minVolume maxVolume initialStepSize,
      minVolume ≤ v ∧ v ≤ maxVolume :=
    samplePoints_mem _ _ _ hstep
  have hb1 : minVolume ≤ (state1 E minVolume maxVolume initialStepSize).bestVolume ∧
      (state1 E minVolume maxVolume initialStepSize).bestVolume ≤ maxVolume :=
    runPass_bestVolume_pred E (fun x => minVolume ≤ x ∧ x ≤ maxVolume) _
      ⟨minVolume, ⊤⟩ ⟨le_refl _, hrange⟩ hP1
  have hP2 : ∀ v ∈ pass2Points E minVolume maxVolume initialStepSize,
      minVolume ≤ v ∧ v ≤ maxVolume := by
    intro v hv
    simp only [pass2Points] at hv
    obtain ⟨hlo, hhi⟩ := samplePoints_mem _ _ _ h10 v hv
    exact ⟨le_trans (le_max_left _ _) hlo, le_trans hhi (min_le_left _ _)⟩
  have hb2 : minVolume ≤ (state2 E minVolume maxVolume initialStepSize).bestVolume ∧
      (state2 E minVolume maxVolume initialStepSize).bestVolume ≤ maxVolume :=
    runPass_bestVolume_pred E (fun x => minVolume ≤ x ∧ x ≤ maxVolume) _
      (state1 E minVolume maxVolume initialStepSize) hb1 hP2
  have hP3 : ∀ v ∈ pass3Points E minVolume maxVolume initialStepSize,
      minVolume ≤ v ∧ v ≤ maxVolume := by
    intro v hv
    simp only [pass3Points] at hv
    obtain ⟨hlo, hhi⟩ := samplePoints_mem _ _ _ h50 v hv
    exact ⟨le_trans (le_max_left _ _) hlo, le_trans hhi (min_le_left _ _)⟩
  intro v hv
  rw [searchPoints] at hv
  rcases List.mem_append.mp hv with hv' | hv3
  · rcases List.mem_append.mp hv' with hv1 | hv2
    · exact hP1 v hv1
    · exact hP2 v hv2
  · exact hP3 v hv3

set_option maxRecDepth 100000 in
unseal Rat.add Rat.mul Rat.inv Rat.sub in
/-- **C6**, witness: a concrete in-range instance of the theorem. -/
theorem c6_witness : (0:ℚ) ≤ 5 ∧ (5:ℚ) ≤ 10 :=
  c6_theorem (fun _ => 0) 0 10 5 (by norm_num) (by norm_num) 5 (by decide)

/-- **C7** (confirmed): the running best is replaced only on strict
improvement, so across all three passes the returned best volume is the
earliest-visited minimum-cost point: it splits the visit sequence so that
every earlier point costs strictly more, and no visited point costs less. -/
theorem c7_theorem (E : ℚ → ℚ) (minVolume maxVolume initialStepSize : ℚ)
    (hrange : minVolume ≤ maxVolume) :
    ∃ pre suf,
      searchPoints E minVolume maxVolume initialStepSize =
        pre ++ (state3 E minVolume maxVolume initialStepSize).bestVolume :: suf ∧
      (∀ v ∈ searchPoints E minVolume maxVolume initialStepSize,
        E (state3 E minVolume maxVolume initialStepSize).bestVolume ≤ E v) ∧
      (∀ v ∈ pre,
        E (state3 E minVolume maxVolume initialStepSize).bestVolume < E v) := by
  obtain ⟨⟨hc1, hc2⟩, hd⟩ :=
    runPass_argmin E (searchPoints E minVolume maxVolume initialStepSize) ⟨minVolume, ⊤⟩
  rw [← state3_eq_runPass] at hc2 hd
  have hmem : minVolume ∈ searchPoints E minVolume maxVolume initialStepSize := by
    rw [searchPoints]
    exact List.mem_append_left _ (List.mem_append_left _
      (samplePoints_head_mem _ _ _ hrange))
  rcases hd with heq | ⟨pre, suf, hsplit, hlc, _, hpre⟩
  · exfalso
    have htop := hc2 minVolume hmem
    rw [heq] at htop
    exact (WithTop.not_top_le_coe _) htop
  · refine ⟨pre, suf, hsplit, ?_, ?_⟩
    · intro v hv
      have h1 := hc2 v hv
      rw [hlc] at h1
      exact_mod_cast h1
    · intro v hv
      have h1 := hpre v hv
      rw [hlc] at h1
      exact_mod_cast h1

set_option maxRecDepth 100000 in
unseal Rat.add Rat.mul Rat.inv Rat.sub in
/-- **C7**, witness: the theorem instantiated at a concrete evaluator and
range. -/
theorem c7_witness :
    ∃ pre suf,
      searchPoints (fun _ => (0:ℚ)) 0 10 5 =
        pre ++ (state3 (fun _ => (0:ℚ)) 0 10 5).bestVolume :: suf ∧
      (∀ v ∈ searchPoints (fun _ => (0:ℚ)) 0 10 5, (0:ℚ) ≤ (0:ℚ)) ∧
      (∀ v ∈ pre, (0:ℚ) < (0:ℚ)) :=
  c7_theorem (fun _ => 0) 0 10 5 (by norm_num)

set_option maxRecDepth 100000 in
unseal Rat.add Rat.mul Rat.inv Rat.sub in
/-- **C8**, counterexample: when the model backend is unavailable (the load
attempt rejects), evaluation does not fail at all — the search runs to
completion on the silently substituted fallback model and returns its
optimum `{volume: 5050, cost: 14500}`; the code defines no
`EvaluationError`. -/
theorem c8_counterexample :
    (findOptimalProductionVolumeSt (Except.error "backend unavailable")
        100 10000 500 ModelCache.initial).1 =
      ⟨5050, ((14500 : ℤ) : WithTop ℤ)⟩ := by
  decide

/-- **C8** (amended): if model loading fails, `loadCostOptimizationModel`
catches the error and silently substitutes (and caches) the fallback model;
`predictManufacturingCost` then succeeds with the fallback cost, for every
error and every volume — no failure is ever propagated. -/
theorem c8_theorem (e : String) (v : ℚ) :
    predictManufacturingCostSt (Except.error e) v ModelCache.initial =
      (denormalizeCost (createFallbackModelPredict (normalizeProductionVolume v)),
        ⟨some CostModel.fallback⟩) := rfl

set_option maxRecDepth 100000 in
unseal Rat.add Rat.mul Rat.inv Rat.sub in
/-- **C9**, counterexample: a search invocation does mutate module-level
state — starting from the empty `modelCache` it leaves a model cached — and
the cache is shared across invocations: a second `search` call returns a
different result depending on whether an earlier invocation already cached a
model (here, a constant model cached by the first call is reused even though
the second call's own load attempt fails). -/
theorem c9_counterexample :
    ((findOptimalProductionVolumeSt (Except.ok (CostModel.real (fun _ => 0)))
        100 200 100 ModelCache.initial).2).costOptimization.isSome = true ∧
    (findOptimalProductionVolumeSt (Except.error "backend unavailable") 100 200 100
        (findOptimalProductionVolumeSt (Except.ok (CostModel.real (fun _ => 0)))
          100 200 100 ModelCache.initial).2).1 ≠
      (findOptimalProductionVolumeSt (Except.error "backend unavailable") 100 200 100
        ModelCache.initial).1 := by
  refine ⟨by decide, by decide⟩

/-- **C9** (amended): the first evaluator call of a search populates the
module-level `modelCache`, and a populated cache overrides the load outcome
of every later call: whatever model an earlier invocation cached is what a
later invocation uses. -/
theorem c9_theorem (loadOutcome : Except String CostModel) (v : ℚ) (m : CostModel) :
    (predictManufacturingCostSt loadOutcome v ⟨some m⟩).1 =
      denormalizeCost (m.predictFn (normalizeProductionVolume v)) ∧
    (predictManufacturingCostSt loadOutcome v ⟨some m⟩).2 = ⟨some m⟩ ∧
    ((predictManufacturingCostSt loadOutcome v ModelCache.initial).2).costOptimization.isSome
      = true := by
  refine ⟨rfl, rfl, ?_⟩
  cases loadOutcome <;> rfl

/-- Casting a clamped integer into `ℚ` yields a non-negative integer value. -/
theorem intCast_max_zero (z : ℤ) :
    0 ≤ ((Max.max 0 z : ℤ) : ℚ) ∧ ∃ n : ℕ, ((Max.max 0 z : ℤ) : ℚ) = (n : ℚ) := by
  constructor
  · exact_mod_cast le_max_left 0 z
  · refine ⟨(Max.max 0 z).toNat, ?_⟩
    have h0 : 0 ≤ Max.max 0 z := le_max_left 0 z
    exact_mod_cast (Int.toNat_of_nonneg h0).symm

/-- **C10** (confirmed): for every feature record, `predictDemand` returns a
non-negative integer — the weighted-sum-with-threshold-multipliers result is
rounded to the nearest integer (`Math.round`) and clamped below at `0`. -/
theorem c10_theorem (features : DemandFeatures) :
    0 ≤ predictDemand features ∧ ∃ n : ℕ, predictDemand features = (n : ℚ) := by
  simp only [predictDemand]
  exact intCast_max_zero _

end SupplyChain
